import Mathlib

/-!
# loadtest: shallow embedding of `main.go`

The development embeds the request dispatcher (`sendRequest`), the outcome table
(`addError`), the worker loop (`performTest`), the worker pool (`loadtest`), the key
sorting (`sortedKeys`) and the integer part of the final report of `main`.

Conventions.

* `int64` values are integers reduced by `wrap64`; `atomic.AddInt64` and `++` are `addInt64`.
* Go strings are Lean strings (valid UTF-8 text); byte-wise comparison of valid UTF-8 is
  comparison of the code point sequences, which is what `stringLess` computes.
* The Go map `map[string]*ErrorData` is an association list with unique keys (`AList`); the
  order of its entries stands for the unspecified iteration order of the map.
* The network is an input: each call of `sendRequest` is given a `Dispatch`, the result of
  `http.NewRequest` and `client.Do`. The clock is an input too (`now`, nanoseconds).
* Goroutines started by `addError` are kept in `World.goroutines` until the scheduler runs them.
* Workers interleave at the control points of `PC`; shared memory is sequentially consistent.
  The loop condition of line 139 is read in one step, and the shared effects of one call of
  `sendRequest` (an atomic add and the start of a goroutine) take place in one step.
* A run-time panic is the result `none`.
-/

namespace Loadtest

/-! ## Machine integers -/

/-- Two's-complement reduction to the `int64` range. -/
def wrap64 (x : Int) : Int := (x + 2 ^ 63) % 2 ^ 64 - 2 ^ 63

/-- Addition on `int64` (`atomic.AddInt64`, `++`). -/
def addInt64 (x d : Int) : Int := wrap64 (x + d)

/-! ## Constants and types (lines 23-65) -/

def Clear : String := "\x1b[0m"
def Green : String := "\x1b[1;32m"
def Red : String := "\x1b[1;31m"
def Yellow : String := "\x1b[1;33m"
def Blue : String := "\x1b[1;34m"

/-- Entry of the outcome table: `type ErrorData struct`. -/
structure ErrorData where
  Count : Int
  Color : String
deriving DecidableEq

/-- The Go type `map[string]*ErrorData`. -/
abbrev ErrorMap := AList (fun _ : String => ErrorData)

/-- The global record: `type Data struct` (`End` is never read and is left out). -/
structure Data where
  ErrorCount : Int
  Errors : ErrorMap
  Interrupt : Bool
  OutColor : String
  RequestCount : Int
  Start : Int

/-- The configuration record: `type Options struct`. `Delay`, `Timeout` and
`IgnoreCertificate` only configure the sleep and the HTTP client, whose results enter the
model as inputs, and are left out. -/
structure Options where
  Command : String
  Data : String
  Duration : Int
  Headers : List String
  RequestCount : Int
  Threads : Int
  URL : String

/-! ## Library functions used by the program -/

/-- The function `strconv.Itoa`: decimal text of an integer. -/
def Itoa (n : Int) : String := toString n

/-- Cut a character sequence at the first occurrence of `sep`. -/
def cutFirst (sep : Char) : List Char → Option (List Char × List Char)
  | [] => none
  | c :: cs =>
    if c = sep then some ([], cs)
    else match cutFirst sep cs with
      | none => none
      | some (a, b) => some (c :: a, b)

/-- The function `strings.SplitN(s, sep, n)` for a one-character separator and `n ≥ 0`:
at most `n` pieces, the last one holding the unsplit remainder. -/
def SplitN (s : List Char) (sep : Char) : Nat → List (List Char)
  | 0 => []
  | 1 => [s]
  | n + 2 =>
    match cutFirst sep s with
    | none => [s]
    | some (a, rest) => a :: SplitN rest sep (n + 1)

/-- The predicate `unicode.IsSpace`. -/
def isSpace (c : Char) : Bool :=
  decide (c.toNat ∈ [0x09, 0x0A, 0x0B, 0x0C, 0x0D, 0x20, 0x85, 0xA0, 0x1680,
    0x2000, 0x2001, 0x2002, 0x2003, 0x2004, 0x2005, 0x2006, 0x2007, 0x2008, 0x2009, 0x200A,
    0x2028, 0x2029, 0x202F, 0x205F, 0x3000])

/-- The function `strings.TrimSpace`: leading and trailing white space removed. -/
def TrimSpace (s : List Char) : List Char :=
  ((s.dropWhile isSpace).reverse.dropWhile isSpace).reverse

/-- The type `http.Header`: canonical key to list of values. -/
abbrev Header := AList (fun _ : String => List String)

/-- The method `Header.Set`: the values of the canonical form of `key` are replaced by the
single value `value`. The canonicalisation `textproto.CanonicalMIMEHeaderKey` is the
parameter `canon`. -/
def Header.Set (canon : String → String) (key value : String) (h : Header) : Header :=
  h.insert (canon key) [value]

/-- Byte-wise `<` on strings, as used by `sort.Strings`. -/
def charsLess : List Char → List Char → Bool
  | [], [] => false
  | [], _ :: _ => true
  | _ :: _, [] => false
  | a :: as, b :: bs =>
    if a.toNat < b.toNat then true
    else if b.toNat < a.toNat then false
    else charsLess as bs

def stringLess (a b : String) : Bool := charsLess a.data b.data

/-- The order `a ≤ b` of `sort.Strings`, that is, not `b < a`. -/
def stringLE (a b : String) : Prop := stringLess b a = false

instance : DecidableRel stringLE := fun a b => by unfold stringLE; infer_instance

/-- The function `sort.Strings`: the ascending arrangement of the slice. -/
def sortStrings (keys : List String) : List String := keys.insertionSort stringLE

/-! ## The program state -/

/-- Control points of one worker running `performTest`. -/
inductive PC where
  /-- About to evaluate the loop condition of line 139. -/
  | guard
  /-- Loop condition passed, about to run line 140. -/
  | incr
  /-- About to call `sendRequest` (line 141). -/
  | send
  /-- About to run the duration test of lines 144-146. -/
  | check
  /-- About to sleep (line 147). -/
  | sleep
  /-- Returned: `fatal = true` at line 142, `fatal = false` at line 149. -/
  | returned (fatal : Bool)
deriving DecidableEq

/-- Process state: the global `OutputData`, the goroutines started by `addError` that have
not run yet (label, colour), and the control point of every worker. -/
structure World where
  OutputData : Data
  goroutines : List (String × String)
  workers : List PC

/-! ## Outcome table (lines 67-88) -/

/-- The function `setColor`; the terminal output is not modelled. -/
def setColor (color : String) (w : World) : World :=
  { w with OutputData := { w.OutputData with OutColor := color } }

/-- Body of the goroutine of `addError` (lines 76-86), run under `errorMutex`. -/
def addErrorBody (error color : String) (errors : ErrorMap) : ErrorMap :=
  match errors.lookup error with
  | some data => errors.insert error { data with Count := addInt64 data.Count 1 }
  | none => errors.insert error { Color := color, Count := 1 }

/-- The function `addError`: starts a goroutine and returns at once. -/
def addError (error color : String) (w : World) : World :=
  { w with goroutines := w.goroutines ++ [(error, color)] }

/-! ## Request dispatcher (lines 90-126) -/

/-- What the HTTP library answers during one call of `sendRequest`. -/
inductive Dispatch where
  /-- The call `http.NewRequest` returned an error with this message. -/
  | newRequestError (msg : String)
  /-- The call `client.Do` returned an error with this message. -/
  | doError (msg : String)
  /-- The call `client.Do` returned a response with this status code. -/
  | response (StatusCode : Int)
deriving DecidableEq

/-- One round of the loop of lines 102-105: `none` is the index-out-of-range panic. -/
def setHeader (canon : String → String) (h : String) (hdr : Header) : Option Header :=
  let header := SplitN h.data ':' 2
  match header[0]?, header[1]? with
  | some k, some v => some (hdr.Set canon (String.mk (TrimSpace k)) (String.mk (TrimSpace v)))
  | _, _ => none

/-- The validation of lines 304-310: the header splits in exactly two pieces. -/
def validHeader (h : String) : Bool := (SplitN h.data ':' 2).length == 2

/-- Text of a header before its first colon, white space trimmed. -/
def headerKey (h : String) : String := String.mk (TrimSpace (h.data.takeWhile (· != ':')))

/-- Text of a header after its first colon, white space trimmed. -/
def headerValue (h : String) : String :=
  String.mk (TrimSpace ((h.data.dropWhile (· != ':')).drop 1))

/-- The loop of lines 102-105 over `options.Headers`. -/
def setHeaders (canon : String → String) : List String → Header → Option Header
  | [], hdr => some hdr
  | h :: hs, hdr =>
    match setHeader canon h hdr with
    | none => none
    | some hdr1 => setHeaders canon hs hdr1

/-- Atomic increment of `OutputData.ErrorCount`. -/
def addErrorCount (w : World) : World :=
  { w with OutputData := { w.OutputData with ErrorCount := addInt64 w.OutputData.ErrorCount 1 } }

/-- The function `sendRequest`. The result is `none` on a panic, else the new state and the
returned `error` (`none` is `nil`). -/
def sendRequest (canon : String → String) (options : Options) (r : Dispatch) (w : World) :
    Option (World × Option String) :=
  match r with
  | .newRequestError msg => some (w, some msg)
  | .doError msg =>
    match setHeaders canon options.Headers ∅ with
    | none => none
    | some _ => some (addError msg Blue (setColor Blue (addErrorCount w)), none)
  | .response StatusCode =>
    match setHeaders canon options.Headers ∅ with
    | none => none
    | some _ =>
      if StatusCode = 200 then some (addError "200" Green (setColor Green w), none)
      else some (addError (Itoa StatusCode) Red (setColor Red (addErrorCount w)), none)

/-! ## Worker loop (lines 128-150) -/

/-- The loop condition of line 139. -/
def loopGuard (options : Options) (d : Data) : Bool :=
  d.Interrupt == false && (options.RequestCount == 0 || decide (d.RequestCount < options.RequestCount))

/-- The test of line 144; `time.Second * time.Duration(options.Duration)` is an `int64`
product of nanoseconds and `Before` is strict. -/
def durationExpired (options : Options) (start now : Int) : Bool :=
  decide (options.Duration > 0) && decide (start + wrap64 (1000000000 * options.Duration) < now)

/-- The function `performTest`, one control step at a time: the step of a worker at control
point `pc`. The HTTP client built in lines 129-138 is part of the network input. -/
def performTestStep (canon : String → String) (options : Options) (r : Dispatch) (now : Int)
    (pc : PC) (w : World) : Option (PC × World) :=
  match pc with
  | .guard => if loopGuard options w.OutputData then some (.incr, w) else some (.returned false, w)
  | .incr =>
    some (.send, { w with OutputData :=
      { w.OutputData with RequestCount := addInt64 w.OutputData.RequestCount 1 } })
  | .send =>
    match sendRequest canon options r w with
    | none => none
    | some (w1, some _) => some (.returned true, w1)
    | some (w1, none) => some (.check, w1)
  | .check =>
    if durationExpired options w.OutputData.Start now then
      some (.sleep, { w with OutputData := { w.OutputData with Interrupt := true } })
    else some (.sleep, w)
  | .sleep => some (.guard, w)
  | .returned fatal => some (.returned fatal, w)

/-! ## Scheduler -/

/-- One scheduling decision. -/
inductive Event where
  /-- Worker `i` takes its next step; `r` and `now` are what the network and the clock give
  if the step asks for them. -/
  | worker (i : Nat) (r : Dispatch) (now : Int)
  /-- The goroutine at position `k` of `World.goroutines` runs to completion. -/
  | goroutine (k : Nat)
  /-- The signal handler of lines 347-352 runs. -/
  | sigint

/-- One step of the process; an event that is not enabled leaves the state as it is. -/
def step (canon : String → String) (options : Options) (w : World) : Event → Option World
  | .worker i r now =>
    match w.workers[i]? with
    | none => some w
    | some pc =>
      match performTestStep canon options r now pc w with
      | none => none
      | some (pc1, w1) => some { w1 with workers := w1.workers.set i pc1 }
  | .goroutine k =>
    match w.goroutines[k]? with
    | none => some w
    | some (error, color) =>
      some { w with
        OutputData := { w.OutputData with Errors := addErrorBody error color w.OutputData.Errors }
        goroutines := w.goroutines.eraseIdx k }
  | .sigint => some { w with OutputData := { w.OutputData with Interrupt := true } }

/-- A schedule run from `w`. -/
def run (canon : String → String) (options : Options) (w : World) : List Event → Option World
  | [] => some w
  | e :: es =>
    match step canon options w e with
    | none => none
    | some w1 => run canon options w1 es

/-- State in which `loadtest` starts its workers (lines 179-186): zeroed counters, empty
table, `Start` set by `main` at line 327. -/
def start (options : Options) (t0 : Int) : World :=
  { OutputData :=
      { ErrorCount := 0, Errors := ∅, Interrupt := false, OutColor := "", RequestCount := 0,
        Start := t0 }
    goroutines := []
    workers := List.replicate options.Threads.toNat PC.guard }

/-- Every worker has returned: `wg.Wait()` of line 187 is over. -/
def joined (w : World) : Bool := w.workers.all fun pc => pc matches .returned _

/-! ## Report (lines 230-239, 356-369) -/

/-- The function `sortedKeys`. -/
def sortedKeys (errorMap : ErrorMap) : List String := sortStrings errorMap.keys

/-- The argument `OutputData.ErrorCount * 100.0 / OutputData.RequestCount` of line 363:
`int64` arithmetic, truncated division, `none` is the integer-divide-by-zero panic. -/
def errorRatePercent (d : Data) : Option Int :=
  if d.RequestCount = 0 then none
  else some (wrap64 ((wrap64 (d.ErrorCount * 100)).tdiv d.RequestCount))

/-- Entry of the outcome table as stored in the association list. -/
abbrev Entry := Sigma fun _ : String => ErrorData

/-- Sum of the counts of a list of entries. -/
def sumCounts (l : List Entry) : Int := (l.map fun e => e.2.Count).sum

/-- Sum of the counts of the outcome table. -/
def totalCount (errors : ErrorMap) : Int := sumCounts errors.entries

/-- The figures printed by lines 360-369 that are integers or labels; the rates per second
are floating-point values and are left out. -/
structure Report where
  errors : Int
  requests : Int
  errorRatePercent : Int
  responses : List (String × ErrorData)

/-- The report of lines 360-369; the arguments of the first `Printf` are evaluated first, so
a panic there prints nothing. -/
def report (d : Data) : Option Report :=
  match errorRatePercent d with
  | none => none
  | some p =>
    some
      { errors := d.ErrorCount
        requests := d.RequestCount
        errorRatePercent := p
        responses := (sortedKeys d.Errors).filterMap fun key =>
          (d.Errors.lookup key).map fun value => (key, value) }

/-! ## Sample configuration -/

/-- One worker, five requests, one header, no duration limit. -/
def exampleOptions : Options :=
  { Command := "GET", Data := "", Duration := 0, Headers := ["Accept: text/html"],
    RequestCount := 5, Threads := 1, URL := "http://localhost:1" }

/-- The state in which the sample run starts. -/
def exampleWorld : World := start exampleOptions 0

/-! ## Invariants of the scheduler -/

/-- Number of workers at control point `pc`. -/
def atPC (pc : PC) (workers : List PC) : Int := (workers.count pc : Int)

/-- Requests admitted so far: those counted plus those whose worker passed the loop condition
and has not run line 140 yet. -/
def admitted (w : World) : Int := w.OutputData.RequestCount + atPC .incr w.workers

/-- Accounting of the counters: every counted request is in the table, waits in a goroutine
of `addError`, is being sent, or ended the worker at line 142. -/
structure Accounted (w : World) : Prop where
  requests : w.OutputData.RequestCount =
    totalCount w.OutputData.Errors + w.goroutines.length + atPC .send w.workers +
      atPC (.returned true) w.workers
  errors_nonneg : 0 ≤ w.OutputData.ErrorCount
  errors : w.OutputData.ErrorCount ≤ totalCount w.OutputData.Errors + w.goroutines.length
  counts : ∀ e ∈ w.OutputData.Errors.entries, 1 ≤ e.2.Count

/-- The steps of the process as a relation, one rule per effect of `step`. -/
inductive Step (options : Options) : World → Event → World → Prop where
  /-- The event is not enabled, or the worker has returned. -/
  | idle (w : World) (e : Event) : Step options w e w
  /-- Line 139, condition true. -/
  | pass (w : World) (i : Nat) (r : Dispatch) (now : Int) :
    w.workers[i]? = some .guard → loopGuard options w.OutputData = true →
    Step options w (.worker i r now) { w with workers := w.workers.set i .incr }
  /-- Line 139, condition false: the worker returns at line 149. -/
  | stop (w : World) (i : Nat) (r : Dispatch) (now : Int) :
    w.workers[i]? = some .guard → loopGuard options w.OutputData = false →
    Step options w (.worker i r now) { w with workers := w.workers.set i (.returned false) }
  /-- Line 140. -/
  | count (w : World) (i : Nat) (r : Dispatch) (now : Int) :
    w.workers[i]? = some .incr →
    Step options w (.worker i r now)
      { w with
        OutputData := { w.OutputData with RequestCount := addInt64 w.OutputData.RequestCount 1 }
        workers := w.workers.set i .send }
  /-- Lines 96-100 and 141-143: request construction failed, the worker returns. -/
  | fatal (w : World) (i : Nat) (msg : String) (now : Int) :
    w.workers[i]? = some .send →
    Step options w (.worker i (.newRequestError msg) now)
      { w with workers := w.workers.set i (.returned true) }
  /-- Lines 107-113: transport error. -/
  | failed (w : World) (i : Nat) (msg : String) (now : Int) :
    w.workers[i]? = some .send →
    Step options w (.worker i (.doError msg) now)
      { OutputData :=
          { w.OutputData with
            ErrorCount := addInt64 w.OutputData.ErrorCount 1, OutColor := Blue }
        goroutines := w.goroutines ++ [(msg, Blue)]
        workers := w.workers.set i .check }
  /-- Lines 115-118: status 200. -/
  | success (w : World) (i : Nat) (now : Int) :
    w.workers[i]? = some .send →
    Step options w (.worker i (.response 200) now)
      { OutputData := { w.OutputData with OutColor := Green }
        goroutines := w.goroutines ++ [("200", Green)]
        workers := w.workers.set i .check }
  /-- Lines 119-124: any other status. -/
  | status (w : World) (i : Nat) (s : Int) (now : Int) :
    w.workers[i]? = some .send → s ≠ 200 →
    Step options w (.worker i (.response s) now)
      { OutputData :=
          { w.OutputData with
            ErrorCount := addInt64 w.OutputData.ErrorCount 1, OutColor := Red }
        goroutines := w.goroutines ++ [(Itoa s, Red)]
        workers := w.workers.set i .check }
  /-- Lines 144-146, duration over. -/
  | expire (w : World) (i : Nat) (r : Dispatch) (now : Int) :
    w.workers[i]? = some .check → durationExpired options w.OutputData.Start now = true →
    Step options w (.worker i r now)
      { w with
        OutputData := { w.OutputData with Interrupt := true }
        workers := w.workers.set i .sleep }
  /-- Lines 144-146, duration not over or not limited. -/
  | remain (w : World) (i : Nat) (r : Dispatch) (now : Int) :
    w.workers[i]? = some .check → durationExpired options w.OutputData.Start now = false →
    Step options w (.worker i r now) { w with workers := w.workers.set i .sleep }
  /-- Line 147. -/
  | slept (w : World) (i : Nat) (r : Dispatch) (now : Int) :
    w.workers[i]? = some .sleep →
    Step options w (.worker i r now) { w with workers := w.workers.set i .guard }
  /-- Lines 76-86: a goroutine of `addError` runs. -/
  | record (w : World) (k : Nat) (error color : String) :
    w.goroutines[k]? = some (error, color) →
    Step options w (.goroutine k)
      { w with
        OutputData := { w.OutputData with Errors := addErrorBody error color w.OutputData.Errors }
        goroutines := w.goroutines.eraseIdx k }
  /-- Line 350. -/
  | signal (w : World) :
    Step options w .sigint { w with OutputData := { w.OutputData with Interrupt := true } }

/-- A configuration whose method is refused by `http.NewRequest`. -/
def brokenOptions : Options :=
  { Command := "BAD METHOD", Data := "", Duration := 0, Headers := [],
    RequestCount := 5, Threads := 1, URL := "http://localhost:1" }

/-- The schedule in which the only worker of `brokenOptions` runs until it returns. -/
def brokenSchedule : List Event :=
  List.replicate 3 (.worker 0 (.newRequestError "net/http: invalid method") 0)

/-- One full iteration of the only worker of `exampleOptions` against a closed port, followed
by the goroutine of `addError`. -/
def exampleSchedule : List Event :=
  List.replicate 5 (.worker 0 (.doError "connection refused") 0) ++ [.goroutine 0]

/-- The state reached by `exampleSchedule`. -/
def exampleResult : World :=
  { OutputData :=
      { ErrorCount := 1
        Errors := AList.insert "connection refused" { Count := 1, Color := Blue } ∅
        Interrupt := false, OutColor := Blue, RequestCount := 1, Start := 0 }
    goroutines := []
    workers := [PC.guard] }

/-- Events of a run in which no interrupt signal arrives and no request construction fails. -/
def Event.undisturbed : Event → Bool
  | .worker _ (.newRequestError _) _ => false
  | .sigint => false
  | _ => true

/-- Events of a run in which every dispatch ends in the transport error `m` and no
interrupt signal arrives. -/
def Event.refused (m : String) : Event → Bool
  | .worker _ (.doError msg) _ => msg == m
  | .worker _ _ _ => false
  | .goroutine _ => true
  | .sigint => false

/-- Invariant of undisturbed runs without duration limit: the stop flag is down, no worker
returned at line 142, and a worker returned at line 149 only with the limit reached. -/
structure Undisturbed (options : Options) (w : World) : Prop where
  running : w.OutputData.Interrupt = false
  none_fatal : atPC (.returned true) w.workers = 0
  limit_reached : 0 < atPC (.returned false) w.workers →
    options.RequestCount ≤ w.OutputData.RequestCount

/-- Invariant of runs in which every dispatch ends in the transport error `m`. -/
structure Refused (m : String) (w : World) : Prop where
  errors : w.OutputData.ErrorCount + atPC .send w.workers = w.OutputData.RequestCount
  pending : ∀ g ∈ w.goroutines, g = (m, Blue)
  table : ∀ e ∈ w.OutputData.Errors.entries, e.1 = m ∧ e.2.Color = Blue

/-- The sample configuration with a duration limit of one second. -/
def timedOptions : Options := { exampleOptions with Duration := 1 }

/-- The only worker of `exampleOptions` runs until it returns; no goroutine of `addError`
has run. -/
def refusedSchedule : List Event :=
  List.replicate 26 (.worker 0 (.doError "connection refused") 0)

/-- The schedule `refusedSchedule` followed by the five goroutines of `addError`. -/
def drainedSchedule : List Event := refusedSchedule ++ List.replicate 5 (.goroutine 0)

/-- The state reached by `drainedSchedule`. -/
def drainedResult : World :=
  { OutputData :=
      { ErrorCount := 5
        Errors := AList.insert "connection refused" { Count := 5, Color := Blue } ∅
        Interrupt := false, OutColor := Blue, RequestCount := 5, Start := 0 }
    goroutines := []
    workers := [PC.returned false] }

/-- An interrupt signal that arrives before the only worker evaluates its loop condition. -/
def interruptedSchedule : List Event := [.sigint, .worker 0 (.response 200) 0]

/-- The sample configuration with two headers for the same key, the first with a colon in
its value. -/
def headerOptions : Options :=
  { exampleOptions with Headers := ["Accept : text/html:q", " Accept: */*"] }

/-- The global record after six requests: three answered 200, one answered 404, two refused;
the entries are stored in an order that is not the sorted one. -/
def tableData : Data :=
  { ErrorCount := 3
    Errors := ((∅ : ErrorMap).insert "connection refused" { Count := 2, Color := Blue }
      |>.insert "200" { Count := 3, Color := Green }
      |>.insert "404" { Count := 1, Color := Red })
    Interrupt := false, OutColor := Red, RequestCount := 6, Start := 0 }

/-! # Theorems -/

theorem wrap64_of_range {x : Int} (h1 : -2 ^ 63 ≤ x) (h2 : x < 2 ^ 63) : wrap64 x = x := by
  unfold wrap64; omega

theorem addInt64_one {x : Int} (h1 : -2 ^ 63 ≤ x) (h2 : x + 1 < 2 ^ 63) : addInt64 x 1 = x + 1 := by
  unfold addInt64; exact wrap64_of_range (by omega) h2

theorem sumCounts_kerase {a : String} {d : ErrorData} :
    ∀ {l : List Entry}, l.dlookup a = some d → sumCounts l = d.Count + sumCounts (l.kerase a)
  | [], h => by simp at h
  | ⟨k, v⟩ :: l, h => by
    by_cases hk : a = k
    · subst hk
      simp [List.dlookup_cons_eq] at h
      subst h
      simp [sumCounts, List.kerase_cons_eq]
    · rw [List.dlookup_cons_ne _ _ hk] at h
      have ih := sumCounts_kerase h
      rw [List.kerase_cons_ne hk]
      simp only [sumCounts, List.map_cons, List.sum_cons] at ih ⊢
      omega

theorem totalCount_insert_of_some {T : ErrorMap} {a : String} {d b : ErrorData}
    (h : T.lookup a = some d) : totalCount (T.insert a b) = totalCount T - d.Count + b.Count := by
  have := sumCounts_kerase (l := T.entries) h
  simp only [totalCount, AList.insert_entries] at this ⊢
  rw [this]
  simp only [sumCounts, List.map_cons, List.sum_cons]
  omega

theorem totalCount_insert_of_none {T : ErrorMap} {a : String} {b : ErrorData}
    (h : T.lookup a = none) : totalCount (T.insert a b) = totalCount T + b.Count := by
  rw [AList.lookup_eq_none] at h
  simp only [totalCount, AList.insert_entries_of_neg h, sumCounts, List.map_cons, List.sum_cons]
  omega

/-! ## Headers -/

theorem cutFirst_eq_none {sep : Char} : ∀ {s : List Char}, sep ∉ s → cutFirst sep s = none
  | [], _ => rfl
  | c :: cs, h => by
    have h1 : ¬ c = sep := fun e => h (by simp [e])
    have h2 : sep ∉ cs := fun e => h (by simp [e])
    simp [cutFirst, h1, cutFirst_eq_none h2]

theorem cutFirst_eq_some {sep : Char} : ∀ {s : List Char}, sep ∈ s →
    cutFirst sep s = some (s.takeWhile (· != sep), (s.dropWhile (· != sep)).drop 1)
  | [], h => by simp at h
  | c :: cs, h => by
    by_cases h1 : c = sep
    · simp [cutFirst, h1]
    · have h2 : sep ∈ cs := by
        rcases List.mem_cons.1 h with e | e
        · exact absurd e.symm h1
        · exact e
      simp [cutFirst, h1, cutFirst_eq_some h2]

theorem validHeader_iff (h : String) : validHeader h = true ↔ ':' ∈ h.data := by
  unfold validHeader
  by_cases hc : ':' ∈ h.data
  · simp [SplitN, cutFirst_eq_some hc, hc]
  · simp [SplitN, cutFirst_eq_none hc, hc]

theorem setHeader_of_valid (canon : String → String) {h : String} (hv : validHeader h = true)
    (hdr : Header) :
    setHeader canon h hdr = some (hdr.insert (canon (headerKey h)) [headerValue h]) := by
  rw [validHeader_iff] at hv
  simp [setHeader, SplitN, cutFirst_eq_some hv, Header.Set, headerKey, headerValue]

theorem setHeader_of_invalid (canon : String → String) {h : String} (hv : validHeader h = false)
    (hdr : Header) : setHeader canon h hdr = none := by
  have hc : ':' ∉ h.data := by
    intro hc; rw [(validHeader_iff h).2 hc] at hv; cases hv
  simp [setHeader, SplitN, cutFirst_eq_none hc]

theorem setHeaders_of_valid (canon : String → String) :
    ∀ (hs : List String) (hdr : Header), (∀ h ∈ hs, validHeader h = true) →
      ∃ hdr1, setHeaders canon hs hdr = some hdr1 ∧
        ∀ k, hdr1.lookup k =
          match hs.reverse.find? (fun h => canon (headerKey h) == k) with
          | some h => some [headerValue h]
          | none => hdr.lookup k
  | [], hdr, _ => ⟨hdr, rfl, fun k => by simp⟩
  | h :: hs, hdr, hv => by
    have hh : validHeader h = true := hv h (by simp)
    obtain ⟨hdr1, e1, l1⟩ := setHeaders_of_valid canon hs (hdr.insert (canon (headerKey h)) [headerValue h])
      (fun x hx => hv x (by simp [hx]))
    refine ⟨hdr1, by simp [setHeaders, setHeader_of_valid canon hh, e1], fun k => ?_⟩
    rw [l1 k, List.reverse_cons, List.find?_append]
    cases hf : hs.reverse.find? (fun h => canon (headerKey h) == k) with
    | some x => simp
    | none =>
      by_cases hk : canon (headerKey h) = k
      · subst hk; simp [AList.lookup_insert]
      · have hk2 : k ≠ canon (headerKey h) := fun e => hk e.symm
        simp [hk, AList.lookup_insert_ne hk2]

theorem setHeaders_isSome (canon : String → String) {hs : List String}
    (hv : ∀ h ∈ hs, validHeader h = true) : ∃ hdr1, setHeaders canon hs ∅ = some hdr1 := by
  obtain ⟨hdr1, e, _⟩ := setHeaders_of_valid canon hs ∅ hv
  exact ⟨hdr1, e⟩


/-! ## Sorting -/

theorem char_eq_of_toNat_eq {a b : Char} (h : a.toNat = b.toNat) : a = b := by
  have ha := Char.ofNat_toNat a
  rw [h, Char.ofNat_toNat] at ha
  exact ha.symm

theorem charsLess_total : ∀ a b : List Char, charsLess a b = false ∨ charsLess b a = false
  | [], [] => by simp [charsLess]
  | [], _ :: _ => by simp [charsLess]
  | _ :: _, [] => by simp [charsLess]
  | a :: as, b :: bs => by
    rcases Nat.lt_trichotomy a.toNat b.toNat with h | h | h
    · right; simp [charsLess, h, Nat.lt_asymm h]
    · rcases charsLess_total as bs with ih | ih
      · left; simp [charsLess, h, ih]
      · right; simp [charsLess, h, ih]
    · left; simp [charsLess, h, Nat.lt_asymm h]

theorem charsLess_antisymm : ∀ a b : List Char,
    charsLess a b = false → charsLess b a = false → a = b
  | [], [], _, _ => rfl
  | [], _ :: _, h, _ => by simp [charsLess] at h
  | _ :: _, [], _, h => by simp [charsLess] at h
  | a :: as, b :: bs, h1, h2 => by
    rcases Nat.lt_trichotomy a.toNat b.toNat with h | h | h
    · simp [charsLess, h] at h1
    · have e := char_eq_of_toNat_eq h
      subst e
      simp [charsLess] at h1 h2
      rw [charsLess_antisymm as bs h1 h2]
    · simp [charsLess, h] at h2

theorem charsLess_trans : ∀ a b c : List Char,
    charsLess b a = false → charsLess c b = false → charsLess c a = false
  | [], _, c, _, _ => by cases c <;> simp [charsLess]
  | _ :: _, [], _, h, _ => by simp [charsLess] at h
  | _ :: _, _ :: _, [], _, h => by simp [charsLess] at h
  | a :: as, b :: bs, c :: cs, h1, h2 => by
    simp only [charsLess] at h1 h2 ⊢
    rcases Nat.lt_trichotomy a.toNat b.toNat with h | h | h
    · rcases Nat.lt_trichotomy b.toNat c.toNat with g | g | g
      · have : a.toNat < c.toNat := Nat.lt_trans h g
        simp [this, Nat.lt_asymm this]
      · rw [g] at h; simp [h, Nat.lt_asymm h]
      · simp [g] at h2
    · rcases Nat.lt_trichotomy b.toNat c.toNat with g | g | g
      · rw [← h] at g; simp [g, Nat.lt_asymm g]
      · simp [h, g] at h1 h2 ⊢
        exact charsLess_trans as bs cs h1 h2
      · simp [g] at h2
    · simp [h] at h1

instance : IsTotal String stringLE := ⟨fun a b => charsLess_total b.data a.data⟩

instance : IsTrans String stringLE := ⟨fun a b c h1 h2 => charsLess_trans a.data b.data c.data h1 h2⟩

instance : IsAntisymm String stringLE :=
  ⟨fun a b h1 h2 => String.ext (charsLess_antisymm a.data b.data h2 h1)⟩


theorem char_lt_iff (a b : Char) : a < b ↔ a.toNat < b.toNat := Iff.rfl

theorem charsLess_iff_lex : ∀ a b : List Char,
    charsLess a b = true ↔ List.Lex (fun x y : Char => x < y) a b
  | [], [] => by
    simp only [charsLess]
    constructor
    · intro h; cases h
    · intro h; cases h
  | [], b :: bs => by
    simp only [charsLess]
    exact ⟨fun _ => List.Lex.nil, fun _ => trivial⟩
  | a :: as, [] => by
    simp only [charsLess]
    constructor
    · intro h; cases h
    · intro h; cases h
  | a :: as, b :: bs => by
    have ih := charsLess_iff_lex as bs
    simp only [charsLess]
    by_cases h1 : a.toNat < b.toNat
    · simp only [h1, if_true, true_iff]
      exact List.Lex.rel ((char_lt_iff a b).2 h1)
    · by_cases h2 : b.toNat < a.toNat
      · simp only [h1, h2, if_true, if_false]
        constructor
        · intro h; cases h
        · intro h
          cases h with
          | cons h => exact absurd h2 (Nat.lt_irrefl _)
          | rel h => exact absurd ((char_lt_iff a b).1 h) h1
      · simp only [h1, h2, if_false, ih]
        have e : a = b := char_eq_of_toNat_eq (by omega)
        subst e
        constructor
        · intro h
          exact List.Lex.cons h
        · intro h
          cases h with
          | cons h => exact h
          | rel h => exact absurd ((char_lt_iff a a).1 h) h1

theorem stringLess_iff_lt (a b : String) : stringLess a b = true ↔ a < b :=
  (charsLess_iff_lex a.data b.data).trans String.lt_iff_toList_lt.symm

theorem responses_keys (T : ErrorMap) : ∀ l : List String, (∀ k ∈ l, (T.lookup k).isSome) →
    (l.filterMap fun key => (T.lookup key).map fun value => (key, value)).map Prod.fst = l
  | [], _ => rfl
  | k :: l, h => by
    have hk := h k (by simp)
    have ih := responses_keys T l (fun x hx => h x (by simp [hx]))
    obtain ⟨v, hv⟩ := Option.isSome_iff_exists.1 hk
    simp [List.filterMap_cons, hv, ih]

theorem responses_values (T : ErrorMap) (l : List String) :
    ∀ p ∈ (l.filterMap fun key => (T.lookup key).map fun value => (key, value)),
      p.1 ∈ l ∧ T.lookup p.1 = some p.2 := by
  intro p hp
  obtain ⟨k, hk, he⟩ := List.mem_filterMap.1 hp
  cases hv : T.lookup k with
  | none => simp [hv] at he
  | some v =>
    rw [hv] at he
    have hpe : (k, v) = p := Option.some.inj he
    subst hpe
    exact ⟨hk, hv⟩

/-- C8: `sortedKeys` lists every label of the table exactly once, in strictly ascending
lexicographic order, whatever the iteration order of the map; whenever at least one request
was counted the report is produced, and its per-outcome lines are the labels in that order,
each with the entry the table stores for it. -/
theorem sortedKeys_sorted_perm (errorMap : ErrorMap) :
    (sortedKeys errorMap).Perm errorMap.keys ∧
    (sortedKeys errorMap).Nodup ∧
    (sortedKeys errorMap).length = errorMap.entries.length ∧
    (∀ l, l ∈ sortedKeys errorMap ↔ (errorMap.lookup l).isSome) ∧
    (sortedKeys errorMap).Sorted stringLE ∧
    (sortedKeys errorMap).Pairwise (fun a b => a < b) ∧
    (∀ other : ErrorMap, other.keys.Perm errorMap.keys → sortedKeys other = sortedKeys errorMap) ∧
    (∀ (d : Data) (rep : Report), d.Errors = errorMap → report d = some rep →
      rep.responses.map Prod.fst = sortedKeys errorMap) ∧
    (∀ d : Data, d.Errors = errorMap → d.RequestCount ≠ 0 →
      ∃ rep, report d = some rep ∧
        rep.responses.map Prod.fst = sortedKeys errorMap ∧
        rep.responses.length = errorMap.entries.length ∧
        (∀ p ∈ rep.responses, errorMap.lookup p.1 = some p.2) ∧
        rep.errors = d.ErrorCount ∧ rep.requests = d.RequestCount) := by
  have hp : (sortedKeys errorMap).Perm errorMap.keys := List.perm_insertionSort _ _
  have hs : (sortedKeys errorMap).Sorted stringLE := List.sorted_insertionSort _ _
  have hn : (sortedKeys errorMap).Nodup := hp.nodup_iff.2 errorMap.keys_nodup
  have hm : ∀ l, l ∈ sortedKeys errorMap ↔ (errorMap.lookup l).isSome := by
    intro l
    rw [hp.mem_iff, AList.lookup_isSome, AList.mem_keys]
  have hl : (sortedKeys errorMap).length = errorMap.entries.length := by
    rw [hp.length_eq]; simp [AList.keys, List.keys]
  refine ⟨hp, hn, hl, hm, hs, ?_, ?_, ?_, ?_⟩
  · have := hs.and hn
    refine List.Pairwise.imp ?_ this
    intro a b ⟨hab, hne⟩
    rw [← stringLess_iff_lt]
    by_contra hc
    simp only [Bool.not_eq_true] at hc
    exact hne (String.ext (charsLess_antisymm a.data b.data hc hab))
  · intro other ho
    exact List.eq_of_perm_of_sorted ((List.perm_insertionSort _ _).trans (ho.trans hp.symm))
      (List.sorted_insertionSort _ _) hs
  · intro d rep hd hr
    subst hd
    unfold report at hr
    cases hp : errorRatePercent d with
    | none => simp [hp] at hr
    | some p =>
      simp only [hp, Option.some.injEq] at hr
      subst hr
      exact responses_keys d.Errors _ (fun k hk => (hm k).1 hk)
  · intro d hd hrc
    subst hd
    have hk := responses_keys d.Errors (sortedKeys d.Errors) (fun k hk => (hm k).1 hk)
    refine ⟨_, by simp [report, errorRatePercent, hrc]; rfl, hk, ?_,
      fun p hp => (responses_values d.Errors _ p hp).2, rfl, rfl⟩
    rw [← hl, ← List.length_map _ Prod.fst, hk]

/-- The labels of `tableData`, as the report prints them. -/
theorem sortedKeys_sorted_perm_witness :
    (tableData.RequestCount ≠ 0 ∧
      (report tableData).map (fun rep => rep.responses.map fun p => (p.1, p.2.Count)) =
        some [("200", 3), ("404", 1), ("connection refused", 2)]) ∧
    ∃ rep, report tableData = some rep ∧
      rep.responses.map Prod.fst = sortedKeys tableData.Errors ∧
      rep.responses.length = tableData.Errors.entries.length ∧
      (∀ p ∈ rep.responses, tableData.Errors.lookup p.1 = some p.2) ∧
      rep.errors = tableData.ErrorCount ∧ rep.requests = tableData.RequestCount :=
  ⟨by decide, (sortedKeys_sorted_perm tableData.Errors).2.2.2.2.2.2.2.2 tableData rfl (by decide)⟩

/-! ## Outcome table -/

/-- C4: the goroutine of `addError` creates an absent label with count 1 and the given
category, adds 1 (in `int64`) to the count of a present label and keeps its category, leaves
every other label as it is and removes none; it is total. -/
theorem addError_table (T : ErrorMap) (l c : String) :
    (∀ (canon : String → String) (options : Options) (w : World), w.OutputData.Errors = T →
      (step canon options (addError l c w) (.goroutine w.goroutines.length)).map
        (fun w1 => (w1.OutputData.Errors, w1.goroutines)) = some (addErrorBody l c T, w.goroutines)) ∧
    (T.lookup l = none → (addErrorBody l c T).lookup l = some { Count := 1, Color := c }) ∧
    (∀ d, T.lookup l = some d →
      (addErrorBody l c T).lookup l = some { Count := addInt64 d.Count 1, Color := d.Color } ∧
      (-2 ^ 63 ≤ d.Count → d.Count + 1 < 2 ^ 63 → addInt64 d.Count 1 = d.Count + 1)) ∧
    (∀ l1, l1 ≠ l → (addErrorBody l c T).lookup l1 = T.lookup l1) ∧
    (∀ k, k ∈ T.keys → k ∈ (addErrorBody l c T).keys) := by
  refine ⟨?_, ?_, ?_, ?_, ?_⟩
  · intro canon options w hw
    subst hw
    simp [step, addError, List.eraseIdx_append_of_length_le]
  · intro h
    simp [addErrorBody, h, AList.lookup_insert]
  · intro d h
    exact ⟨by simp [addErrorBody, h, AList.lookup_insert], fun h1 h2 => addInt64_one h1 h2⟩
  · intro l1 h
    unfold addErrorBody
    cases T.lookup l <;> simp [AList.lookup_insert_ne h]
  · intro k hk
    rw [← AList.mem_keys] at hk ⊢
    unfold addErrorBody
    cases T.lookup l <;> simp [AList.mem_insert, hk]

/-! ## Request dispatcher -/

theorem sendRequest_doError (canon : String → String) {options : Options}
    (hv : ∀ h ∈ options.Headers, validHeader h = true) (msg : String) (w : World) :
    sendRequest canon options (.doError msg) w =
      some (addError msg Blue (setColor Blue (addErrorCount w)), none) := by
  obtain ⟨hdr, e⟩ := setHeaders_isSome canon hv
  simp [sendRequest, e]

theorem sendRequest_response (canon : String → String) {options : Options}
    (hv : ∀ h ∈ options.Headers, validHeader h = true) (s : Int) (w : World) :
    sendRequest canon options (.response s) w =
      if s = 200 then some (addError "200" Green (setColor Green w), none)
      else some (addError (Itoa s) Red (setColor Red (addErrorCount w)), none) := by
  obtain ⟨hdr, e⟩ := setHeaders_isSome canon hv
  simp [sendRequest, e]

/-- C1: with validated headers and an error count below the `int64` maximum, a transport
error `msg` starts the recording of (`msg`, Blue) and adds 1 to the error count, status 200
starts the recording of ("200", Green) and leaves the error count, any other status `s`
starts the recording of (decimal text of `s`, Red) and adds 1 to the error count; each time
`sendRequest` returns `nil` and the request count and the table are untouched. -/
theorem sendRequest_outcome (canon : String → String) (options : Options) (w : World)
    (hv : ∀ h ∈ options.Headers, validHeader h = true)
    (hlo : -2 ^ 63 ≤ w.OutputData.ErrorCount) (hhi : w.OutputData.ErrorCount + 1 < 2 ^ 63) :
    (∀ msg, ∃ w1, sendRequest canon options (.doError msg) w = some (w1, none) ∧
      w1.goroutines = w.goroutines ++ [(msg, Blue)] ∧
      w1.OutputData.ErrorCount = w.OutputData.ErrorCount + 1 ∧
      w1.OutputData.RequestCount = w.OutputData.RequestCount ∧
      w1.OutputData.Errors = w.OutputData.Errors ∧ w1.workers = w.workers) ∧
    (∃ w1, sendRequest canon options (.response 200) w = some (w1, none) ∧
      w1.goroutines = w.goroutines ++ [("200", Green)] ∧
      w1.OutputData.ErrorCount = w.OutputData.ErrorCount ∧
      w1.OutputData.RequestCount = w.OutputData.RequestCount ∧
      w1.OutputData.Errors = w.OutputData.Errors ∧ w1.workers = w.workers) ∧
    (∀ s : Int, s ≠ 200 → ∃ w1, sendRequest canon options (.response s) w = some (w1, none) ∧
      w1.goroutines = w.goroutines ++ [(Itoa s, Red)] ∧
      w1.OutputData.ErrorCount = w.OutputData.ErrorCount + 1 ∧
      w1.OutputData.RequestCount = w.OutputData.RequestCount ∧
      w1.OutputData.Errors = w.OutputData.Errors ∧ w1.workers = w.workers) ∧
    Itoa 201 = "201" ∧ Itoa 204 = "204" ∧ Itoa 404 = "404" := by
  refine ⟨fun msg => ⟨addError msg Blue (setColor Blue (addErrorCount w)),
      sendRequest_doError canon hv msg w, ?_⟩,
    ⟨addError "200" Green (setColor Green w), by rw [sendRequest_response canon hv]; simp, ?_⟩,
    fun s hs => ⟨addError (Itoa s) Red (setColor Red (addErrorCount w)),
      by rw [sendRequest_response canon hv, if_neg hs], ?_⟩,
    by decide, by decide, by decide⟩
  · simp [addError, setColor, addErrorCount, addInt64_one hlo hhi]
  · simp [addError, setColor]
  · simp [addError, setColor, addErrorCount, addInt64_one hlo hhi]



theorem sendRequest_outcome_witness :
    (∃ w1, sendRequest id exampleOptions (.response 200) exampleWorld = some (w1, none) ∧
      w1.goroutines = exampleWorld.goroutines ++ [("200", Green)] ∧
      w1.OutputData.ErrorCount = exampleWorld.OutputData.ErrorCount ∧
      w1.OutputData.RequestCount = exampleWorld.OutputData.RequestCount ∧
      w1.OutputData.Errors = exampleWorld.OutputData.Errors ∧
      w1.workers = exampleWorld.workers) :=
  (sendRequest_outcome id exampleOptions exampleWorld (by decide) (by decide) (by decide)).2.1

/-- C10: with every header accepted by the validation of `main`, `sendRequest` runs without
an index panic; each header is split into the trimmed text before its first colon and the
trimmed text after it, which may hold further colons; after the loop each key holds the
value of the last header that set it. A header without colon is the one that would panic. -/
theorem headers_applied (canon : String → String) (options : Options) (hdr : Header)
    (hv : ∀ h ∈ options.Headers, validHeader h = true) :
    (∀ (r : Dispatch) (w : World), (sendRequest canon options r w).isSome = true) ∧
    (∀ h ∈ options.Headers, ':' ∈ h.data ∧ ∀ hdr0 : Header,
      setHeader canon h hdr0 = some (hdr0.Set canon (headerKey h) (headerValue h))) ∧
    (∃ hdr1, setHeaders canon options.Headers hdr = some hdr1 ∧
      ∀ k, hdr1.lookup k =
        match options.Headers.reverse.find? (fun h => canon (headerKey h) == k) with
        | some h => some [headerValue h]
        | none => hdr.lookup k) ∧
    (∀ h : String, validHeader h = false → ∀ hdr0 : Header, setHeader canon h hdr0 = none) := by
  refine ⟨fun r w => ?_, fun h hh => ⟨(validHeader_iff h).1 (hv h hh), fun hdr0 =>
    setHeader_of_valid canon (hv h hh) hdr0⟩, setHeaders_of_valid canon options.Headers hdr hv,
    fun h hh hdr0 => setHeader_of_invalid canon hh hdr0⟩
  cases r with
  | newRequestError msg => rfl
  | doError msg => rw [sendRequest_doError canon hv]; rfl
  | response s =>
    rw [sendRequest_response canon hv]
    split <;> rfl

theorem headers_applied_witness :
    ((∀ h ∈ headerOptions.Headers, validHeader h = true) ∧
      (setHeaders id headerOptions.Headers ∅).map (fun hdr => hdr.entries) =
        some [⟨"Accept", ["*/*"]⟩]) ∧
    ∃ hdr1, setHeaders id headerOptions.Headers ∅ = some hdr1 ∧
      ∀ k, hdr1.lookup k =
        match headerOptions.Headers.reverse.find? (fun h => id (headerKey h) == k) with
        | some h => some [headerValue h]
        | none => (∅ : Header).lookup k :=
  ⟨by decide, (headers_applied id headerOptions ∅ (by decide)).2.2.1⟩

/-! ## Scheduler: basic facts -/

theorem count_set_pc (a b : PC) : ∀ (l : List PC) (i : Nat) (pc : PC), l[i]? = some pc →
    ((l.set i b).count a : Int) =
      l.count a - (if pc = a then 1 else 0) + (if b = a then 1 else 0)
  | [], i, pc, h => by simp at h
  | x :: l, 0, pc, h => by
    simp at h
    subst h
    simp only [List.set_cons_zero, List.count_cons, beq_iff_eq]
    split <;> split <;> simp
  | x :: l, i + 1, pc, h => by
    simp at h
    have ih := count_set_pc a b l i pc h
    simp only [List.set_cons_succ, List.count_cons, beq_iff_eq]
    push_cast
    omega

theorem count_pos_pc : ∀ (l : List PC) (i : Nat) (pc : PC), l[i]? = some pc →
    (1 : Int) ≤ l.count pc := by
  intro l i pc h
  have hm : pc ∈ l := List.getElem?_mem h
  have := List.count_pos_iff.2 hm
  omega

theorem sumCounts_nonneg : ∀ (l : List Entry), (∀ e ∈ l, 1 ≤ e.2.Count) → 0 ≤ sumCounts l
  | [], _ => by simp [sumCounts]
  | e :: l, h => by
    have h1 := h e (by simp)
    have h2 := sumCounts_nonneg l (fun x hx => h x (by simp [hx]))
    simp only [sumCounts, List.map_cons, List.sum_cons] at h2 ⊢
    omega

theorem count_le_sumCounts {a : String} {d : ErrorData} {l : List Entry}
    (hc : ∀ e ∈ l, 1 ≤ e.2.Count) (h : l.dlookup a = some d) :
    1 ≤ d.Count ∧ d.Count ≤ sumCounts l := by
  have hmem : (⟨a, d⟩ : Entry) ∈ l := List.of_mem_dlookup h
  have h1 := hc _ hmem
  have h2 := sumCounts_kerase h
  have h3 : 0 ≤ sumCounts (l.kerase a) :=
    sumCounts_nonneg _ (fun e he => hc e ((List.kerase_sublist a l).subset he))
  exact ⟨h1, by omega⟩

theorem totalCount_addErrorBody {T : ErrorMap} (l c : String)
    (hc : ∀ e ∈ T.entries, 1 ≤ e.2.Count) (hb : totalCount T + 1 < 2 ^ 63) :
    totalCount (addErrorBody l c T) = totalCount T + 1 ∧
      ∀ e ∈ (addErrorBody l c T).entries, 1 ≤ e.2.Count := by
  unfold addErrorBody
  cases h : T.lookup l with
  | none =>
    refine ⟨by simp [totalCount_insert_of_none h], ?_⟩
    intro e he
    rw [AList.lookup_eq_none] at h
    rw [AList.insert_entries_of_neg h] at he
    rcases List.mem_cons.1 he with e1 | e1
    · subst e1; simp
    · exact hc e e1
  | some d =>
    have hd := count_le_sumCounts hc h
    have hadd : addInt64 d.Count 1 = d.Count + 1 := by
      apply addInt64_one
      · omega
      · have := hd.2; simp only [totalCount] at hb; omega
    refine ⟨by simp [totalCount_insert_of_some h, hadd]; omega, ?_⟩
    intro e he
    rw [AList.insert_entries] at he
    rcases List.mem_cons.1 he with e1 | e1
    · subst e1; simp [hadd]; omega
    · exact hc e ((List.kerase_sublist l T.entries).subset e1)

theorem set_same_pc : ∀ (l : List PC) (i : Nat) (pc : PC), l[i]? = some pc → l.set i pc = l
  | [], _, _, h => by simp at h
  | x :: l, 0, pc, h => by simp at h; simp [h]
  | x :: l, i + 1, pc, h => by simp at h; simp [set_same_pc l i pc h]

theorem step_sound {canon : String → String} {options : Options} {w w1 : World} {e : Event}
    (h : step canon options w e = some w1) : Step options w e w1 := by
  cases e with
  | sigint =>
    simp only [step, Option.some.injEq] at h
    subst h
    exact Step.signal w
  | goroutine k =>
    simp only [step] at h
    cases hk : w.goroutines[k]? with
    | none => simp [hk] at h; subst h; exact Step.idle _ _
    | some g =>
      obtain ⟨error, color⟩ := g
      simp [hk] at h
      subst h
      exact Step.record w k error color hk
  | worker i r now =>
    simp only [step] at h
    cases hi : w.workers[i]? with
    | none => simp [hi] at h; subst h; exact Step.idle _ _
    | some pc =>
      simp only [hi] at h
      cases pc with
      | guard =>
        cases hg : loopGuard options w.OutputData with
        | true => simp [performTestStep, hg] at h; subst h; exact Step.pass w i r now hi hg
        | false => simp [performTestStep, hg] at h; subst h; exact Step.stop w i r now hi hg
      | incr => simp [performTestStep] at h; subst h; exact Step.count w i r now hi
      | send =>
        cases r with
        | newRequestError msg =>
          simp [performTestStep, sendRequest] at h; subst h; exact Step.fatal w i msg now hi
        | doError msg =>
          cases hh : setHeaders canon options.Headers ∅ with
          | none => simp [performTestStep, sendRequest, hh] at h
          | some hdr =>
            simp [performTestStep, sendRequest, hh] at h
            subst h
            exact Step.failed w i msg now hi
        | response s =>
          cases hh : setHeaders canon options.Headers ∅ with
          | none => simp [performTestStep, sendRequest, hh] at h
          | some hdr =>
            by_cases hs : s = 200
            · subst hs
              simp [performTestStep, sendRequest, hh] at h
              subst h
              exact Step.success w i now hi
            · simp [performTestStep, sendRequest, hh, hs] at h
              subst h
              exact Step.status w i s now hi hs
      | check =>
        cases hd : durationExpired options w.OutputData.Start now with
        | true => simp [performTestStep, hd] at h; subst h; exact Step.expire w i r now hi hd
        | false => simp [performTestStep, hd] at h; subst h; exact Step.remain w i r now hi hd
      | sleep => simp [performTestStep] at h; subst h; exact Step.slept w i r now hi
      | returned fatal =>
        simp [performTestStep] at h
        subst h
        rw [set_same_pc _ _ _ hi]
        exact Step.idle _ _

/-! ## Scheduler: accounting invariant -/

theorem atPC_set {workers : List PC} {i : Nat} {pc : PC} (b : PC) (hi : workers[i]? = some pc)
    (a : PC) :
    atPC a (workers.set i b) =
      atPC a workers - (if pc = a then 1 else 0) + (if b = a then 1 else 0) :=
  count_set_pc a b workers i pc hi

theorem atPC_pos {workers : List PC} {i : Nat} {pc : PC} (hi : workers[i]? = some pc) :
    1 ≤ atPC pc workers := count_pos_pc workers i pc hi

theorem atPC_nonneg (a : PC) (workers : List PC) : 0 ≤ atPC a workers := by
  unfold atPC; omega

theorem Accounted.totalCount_nonneg {w : World} (ha : Accounted w) :
    0 ≤ totalCount w.OutputData.Errors := sumCounts_nonneg _ ha.counts

theorem Accounted.requestCount_nonneg {w : World} (ha : Accounted w) :
    0 ≤ w.OutputData.RequestCount := by
  have h1 := ha.requests
  have h2 := ha.totalCount_nonneg
  have h3 := atPC_nonneg .send w.workers
  have h4 := atPC_nonneg (.returned true) w.workers
  omega

theorem Accounted.errors_le_requests {w : World} (ha : Accounted w) :
    w.OutputData.ErrorCount + atPC .send w.workers + atPC (.returned true) w.workers ≤
      w.OutputData.RequestCount := by
  have h1 := ha.requests
  have h2 := ha.errors
  omega

theorem accounted_step {options : Options} {w w1 : World} {e : Event}
    (hs : Step options w e w1) (ha : Accounted w) (hb : admitted w < 2 ^ 63) :
    Accounted w1 ∧
      (admitted w1 ≤ admitted w ∨
        (loopGuard options w.OutputData = true ∧ admitted w1 = admitted w + 1 ∧
          w1.OutputData.RequestCount = w.OutputData.RequestCount)) ∧
      w.OutputData.RequestCount ≤ w1.OutputData.RequestCount ∧
      w.OutputData.ErrorCount ≤ w1.OutputData.ErrorCount ∧
      w1.workers.length = w.workers.length := by
  have hreq := ha.requests
  have herr := ha.errors
  have hnn := ha.errors_nonneg
  have htot := ha.totalCount_nonneg
  have hrc := ha.requestCount_nonneg
  have n1 := atPC_nonneg .send w.workers
  have n2 := atPC_nonneg .incr w.workers
  have n3 := atPC_nonneg (.returned true) w.workers
  unfold admitted at hb ⊢
  cases hs with
  | idle => exact ⟨ha, Or.inl (le_refl _), le_refl _, le_refl _, rfl⟩
  | pass i r now hi hg =>
    have p := atPC_pos hi
    have c1 := atPC_set .incr hi .send
    have c2 := atPC_set .incr hi .incr
    have c3 := atPC_set .incr hi (.returned true)
    simp at c1 c2 c3
    exact ⟨⟨by simp only; omega, hnn, herr, ha.counts⟩, Or.inr ⟨hg, by simp only; omega, rfl⟩, le_refl _, le_refl _,
      by simp⟩
  | stop i r now hi hg =>
    have p := atPC_pos hi
    have c1 := atPC_set (.returned false) hi .send
    have c2 := atPC_set (.returned false) hi .incr
    have c3 := atPC_set (.returned false) hi (.returned true)
    simp at c1 c2 c3
    exact ⟨⟨by simp only; omega, hnn, herr, ha.counts⟩, Or.inl (by simp only; omega), le_refl _, le_refl _,
      by simp⟩
  | count i r now hi =>
    have p := atPC_pos hi
    have c1 := atPC_set .send hi .send
    have c2 := atPC_set .send hi .incr
    have c3 := atPC_set .send hi (.returned true)
    simp at c1 c2 c3
    have hadd : addInt64 w.OutputData.RequestCount 1 = w.OutputData.RequestCount + 1 :=
      addInt64_one (by omega) (by omega)
    exact ⟨⟨by simp only [hadd]; omega, hnn, herr, ha.counts⟩, Or.inl (by simp only [hadd]; omega),
      by simp only [hadd]; omega, le_refl _, by simp⟩
  | fatal i msg now hi =>
    have p := atPC_pos hi
    have c1 := atPC_set (.returned true) hi .send
    have c2 := atPC_set (.returned true) hi .incr
    have c3 := atPC_set (.returned true) hi (.returned true)
    simp at c1 c2 c3
    exact ⟨⟨by simp only; omega, hnn, herr, ha.counts⟩, Or.inl (by simp only; omega), le_refl _, le_refl _,
      by simp⟩
  | failed i msg now hi =>
    have p := atPC_pos hi
    have c1 := atPC_set .check hi .send
    have c2 := atPC_set .check hi .incr
    have c3 := atPC_set .check hi (.returned true)
    simp at c1 c2 c3
    have hadd : addInt64 w.OutputData.ErrorCount 1 = w.OutputData.ErrorCount + 1 :=
      addInt64_one (by omega) (by omega)
    refine ⟨⟨?_, ?_, ?_, ha.counts⟩, Or.inl ?_, le_refl _, ?_, by simp⟩
    · simp only [List.length_append, List.length_singleton]; push_cast; omega
    · simp only [hadd]; omega
    · simp only [hadd, List.length_append, List.length_singleton]; push_cast; omega
    · simp only; omega
    · simp only [hadd]; omega
  | success i now hi =>
    have p := atPC_pos hi
    have c1 := atPC_set .check hi .send
    have c2 := atPC_set .check hi .incr
    have c3 := atPC_set .check hi (.returned true)
    simp at c1 c2 c3
    refine ⟨⟨?_, hnn, ?_, ha.counts⟩, Or.inl ?_, le_refl _, le_refl _, by simp⟩
    · simp only [List.length_append, List.length_singleton]; push_cast; omega
    · simp only [List.length_append, List.length_singleton]; push_cast; omega
    · simp only; omega
  | status i s now hi hne =>
    have p := atPC_pos hi
    have c1 := atPC_set .check hi .send
    have c2 := atPC_set .check hi .incr
    have c3 := atPC_set .check hi (.returned true)
    simp at c1 c2 c3
    have hadd : addInt64 w.OutputData.ErrorCount 1 = w.OutputData.ErrorCount + 1 :=
      addInt64_one (by omega) (by omega)
    refine ⟨⟨?_, ?_, ?_, ha.counts⟩, Or.inl ?_, le_refl _, ?_, by simp⟩
    · simp only [List.length_append, List.length_singleton]; push_cast; omega
    · simp only [hadd]; omega
    · simp only [hadd, List.length_append, List.length_singleton]; push_cast; omega
    · simp only; omega
    · simp only [hadd]; omega
  | expire i r now hi hd =>
    have p := atPC_pos hi
    have c1 := atPC_set .sleep hi .send
    have c2 := atPC_set .sleep hi .incr
    have c3 := atPC_set .sleep hi (.returned true)
    simp at c1 c2 c3
    exact ⟨⟨by simp only; omega, hnn, herr, ha.counts⟩, Or.inl (by simp only; omega), le_refl _, le_refl _,
      by simp⟩
  | remain i r now hi hd =>
    have p := atPC_pos hi
    have c1 := atPC_set .sleep hi .send
    have c2 := atPC_set .sleep hi .incr
    have c3 := atPC_set .sleep hi (.returned true)
    simp at c1 c2 c3
    exact ⟨⟨by simp only; omega, hnn, herr, ha.counts⟩, Or.inl (by simp only; omega), le_refl _, le_refl _,
      by simp⟩
  | slept i r now hi =>
    have p := atPC_pos hi
    have c1 := atPC_set .guard hi .send
    have c2 := atPC_set .guard hi .incr
    have c3 := atPC_set .guard hi (.returned true)
    simp at c1 c2 c3
    exact ⟨⟨by simp only; omega, hnn, herr, ha.counts⟩, Or.inl (by simp only; omega), le_refl _, le_refl _,
      by simp⟩
  | record k error color hk =>
    obtain ⟨hlt, -⟩ := List.getElem?_eq_some.1 hk
    have hlen : ((w.goroutines.eraseIdx k).length : Int) = w.goroutines.length - 1 := by
      rw [List.length_eraseIdx, if_pos hlt]; omega
    have ht := totalCount_addErrorBody error color ha.counts (by omega)
    refine ⟨⟨?_, hnn, ?_, ht.2⟩, Or.inl (by simp only; omega), le_refl _, le_refl _, rfl⟩
    · simp only [ht.1, hlen]; omega
    · simp only [ht.1, hlen]; omega
  | signal =>
    exact ⟨⟨hreq, hnn, herr, ha.counts⟩, Or.inl (by simp only; omega), le_refl _, le_refl _, rfl⟩

theorem run_append (canon : String → String) (options : Options) :
    ∀ (evs1 evs2 : List Event) (w : World),
      run canon options w (evs1 ++ evs2) =
        (run canon options w evs1).bind fun w1 => run canon options w1 evs2
  | [], _, _ => rfl
  | e :: evs1, evs2, w => by
    simp only [List.cons_append, run]
    cases step canon options w e with
    | none => rfl
    | some w1 => exact run_append canon options evs1 evs2 w1

theorem accounted_run {canon : String → String} {options : Options} :
    ∀ (evs : List Event) (w w1 : World) (k : Int), Accounted w → admitted w ≤ k →
      k + evs.length < 2 ^ 63 → run canon options w evs = some w1 →
      Accounted w1 ∧ admitted w1 ≤ k + evs.length ∧
        w.OutputData.RequestCount ≤ w1.OutputData.RequestCount ∧
        w.OutputData.ErrorCount ≤ w1.OutputData.ErrorCount ∧
        w1.workers.length = w.workers.length
  | [], w, w1, k, ha, hk, _, h => by
    simp only [run, Option.some.injEq] at h
    subst h
    exact ⟨ha, by simpa using hk, le_refl _, le_refl _, rfl⟩
  | e :: evs, w, w1, k, ha, hk, hlen, h => by
    simp only [run] at h
    simp only [List.length_cons, Nat.cast_add, Nat.cast_one] at hlen ⊢
    cases hs : step canon options w e with
    | none => simp [hs] at h
    | some w2 =>
      simp only [hs] at h
      obtain ⟨a2, b2, c2, d2, e2⟩ := accounted_step (step_sound hs) ha (by omega)
      have b3 : admitted w2 ≤ k + 1 := by omega
      obtain ⟨a3, b4, c3, d3, e3⟩ := accounted_run evs w2 w1 (k + 1) a2 b3 (by omega) h
      exact ⟨a3, by omega, by omega, by omega, by omega⟩

theorem atPC_replicate_guard (n : Nat) (a : PC) (h : a ≠ .guard) :
    atPC a (List.replicate n PC.guard) = 0 := by
  have : ¬ PC.guard = a := fun e => h e.symm
  simp [atPC, List.count_replicate, this]

theorem start_accounted (options : Options) (t0 : Int) :
    Accounted (start options t0) ∧ admitted (start options t0) = 0 := by
  refine ⟨⟨?_, ?_, ?_, ?_⟩, ?_⟩
  · simp [start, totalCount, sumCounts, atPC_replicate_guard]
  · exact le_refl _
  · simp [start, totalCount, sumCounts]
  · intro e he
    cases he
  · simp [admitted, start, atPC_replicate_guard]

/-- C9: in every state reached from the start by fewer than `2^63` scheduling steps, the error
count is at most the request count, both are non-negative, and from any reached state to any
later one neither counter decreases. -/
theorem counters_ordered_monotone (canon : String → String) (options : Options) (t0 : Int)
    (evs1 evs2 : List Event) (w1 w2 : World)
    (hlen : evs1.length + evs2.length < 2 ^ 63)
    (h1 : run canon options (start options t0) evs1 = some w1)
    (h2 : run canon options w1 evs2 = some w2) :
    (0 ≤ w1.OutputData.ErrorCount ∧ w1.OutputData.ErrorCount ≤ w1.OutputData.RequestCount) ∧
    (0 ≤ w2.OutputData.ErrorCount ∧ w2.OutputData.ErrorCount ≤ w2.OutputData.RequestCount) ∧
    w1.OutputData.RequestCount ≤ w2.OutputData.RequestCount ∧
    w1.OutputData.ErrorCount ≤ w2.OutputData.ErrorCount := by
  obtain ⟨ha, h0⟩ := start_accounted options t0
  have hl : ((evs1.length + evs2.length : Nat) : Int) < 2 ^ 63 := by exact_mod_cast hlen
  push_cast at hl
  obtain ⟨a1, b1, -, -, -⟩ := accounted_run evs1 _ w1 0 ha (le_of_eq h0) (by omega) h1
  obtain ⟨a2, -, c2, d2, -⟩ := accounted_run evs2 w1 w2 (0 + evs1.length) a1 b1 (by omega) h2
  have e1 := a1.errors_le_requests
  have e2 := a2.errors_le_requests
  have n1 := atPC_nonneg .send w1.workers
  have n2 := atPC_nonneg (.returned true) w1.workers
  have n3 := atPC_nonneg .send w2.workers
  have n4 := atPC_nonneg (.returned true) w2.workers
  exact ⟨⟨a1.errors_nonneg, by omega⟩, ⟨a2.errors_nonneg, by omega⟩, c2, d2⟩

/-- C2 as amended: in every state reached from the start by fewer than `2^63` scheduling
steps, the request count is the sum of the table counts, plus the goroutines of `addError`
that have not run, plus the workers inside `sendRequest`, plus the workers that returned
because request construction failed; at a quiescent point the first two extra terms are 0. -/
theorem requests_accounted (canon : String → String) (options : Options) (t0 : Int)
    (evs : List Event) (w : World) (hlen : evs.length < 2 ^ 63)
    (h : run canon options (start options t0) evs = some w) :
    w.OutputData.RequestCount =
        totalCount w.OutputData.Errors + w.goroutines.length + atPC .send w.workers +
          atPC (.returned true) w.workers ∧
    (w.goroutines = [] → atPC .send w.workers = 0 →
      w.OutputData.RequestCount =
        totalCount w.OutputData.Errors + atPC (.returned true) w.workers) ∧
    (w.goroutines = [] → atPC .send w.workers = 0 → atPC (.returned true) w.workers = 0 →
      w.OutputData.RequestCount = totalCount w.OutputData.Errors) := by
  obtain ⟨ha, h0⟩ := start_accounted options t0
  have hl : (evs.length : Int) < 2 ^ 63 := by exact_mod_cast hlen
  obtain ⟨a1, -, -, -, -⟩ := accounted_run evs _ w 0 ha (le_of_eq h0) (by omega) h
  have hr := a1.requests
  refine ⟨hr, fun hg hs => ?_, fun hg hs hf => ?_⟩
  · rw [hg] at hr; simp at hr; omega
  · rw [hg] at hr; simp at hr; omega

/-- C2 as stated fails: when request construction fails, the worker has counted the request
and returns without an outcome, so at the quiescent end the request count is 1 and the sum
of the table counts is 0. -/
theorem requests_accounted_counterexample :
    (run id brokenOptions (start brokenOptions 0) brokenSchedule).map
      (fun w => (joined w, w.goroutines, atPC .send w.workers, w.OutputData.RequestCount,
        totalCount w.OutputData.Errors)) = some (true, [], 0, 1, 0) := by
  decide

theorem exampleSchedule_run :
    run id exampleOptions (start exampleOptions 0) exampleSchedule = some exampleResult := by
  rfl

theorem counters_ordered_monotone_witness :
    ([] : List Event).length + exampleSchedule.length < 2 ^ 63 ∧
    (0 ≤ exampleResult.OutputData.ErrorCount ∧
      exampleResult.OutputData.ErrorCount ≤ exampleResult.OutputData.RequestCount) ∧
    (start exampleOptions 0).OutputData.RequestCount ≤ exampleResult.OutputData.RequestCount ∧
    (start exampleOptions 0).OutputData.ErrorCount ≤ exampleResult.OutputData.ErrorCount :=
  ⟨by decide,
    (counters_ordered_monotone id exampleOptions 0 [] exampleSchedule (start exampleOptions 0)
      exampleResult (by decide) rfl exampleSchedule_run).2⟩

theorem requests_accounted_witness :
    (exampleSchedule.length < 2 ^ 63 ∧ exampleResult.goroutines = [] ∧
      atPC .send exampleResult.workers = 0 ∧ atPC (.returned true) exampleResult.workers = 0) ∧
    exampleResult.OutputData.RequestCount = totalCount exampleResult.OutputData.Errors :=
  ⟨by decide,
    (requests_accounted id exampleOptions 0 exampleSchedule exampleResult (by decide)
      exampleSchedule_run).2.2 rfl (by decide) (by decide)⟩

/-! ## Scheduler: undisturbed runs -/

theorem loopGuard_true {options : Options} {d : Data} (h : loopGuard options d = true)
    (hR : 0 < options.RequestCount) : d.Interrupt = false ∧ d.RequestCount < options.RequestCount := by
  have hne : ¬ options.RequestCount = 0 := by omega
  simpa [loopGuard, hne] using h

theorem loopGuard_false {options : Options} {d : Data} (h : loopGuard options d = false)
    (hI : d.Interrupt = false) : options.RequestCount ≤ d.RequestCount := by
  simp [loopGuard, hI] at h
  omega

theorem durationExpired_false {options : Options} (hD : ¬ 0 < options.Duration) (t0 now : Int) :
    durationExpired options t0 now = false := by
  simp [durationExpired, hD]

theorem undisturbed_step {options : Options} {w w1 : World} {e : Event}
    (hs : Step options w e w1) (he : e.undisturbed = true) (hD : ¬ 0 < options.Duration)
    (hm : w.OutputData.RequestCount ≤ w1.OutputData.RequestCount)
    (hu : Undisturbed options w) : Undisturbed options w1 := by
  have hrun := hu.running
  have hnf := hu.none_fatal
  have hlim := hu.limit_reached
  cases hs with
  | idle => exact hu
  | pass i r now hi hg =>
    have c1 := atPC_set .incr hi .send
    have c3 := atPC_set .incr hi (.returned true)
    have c4 := atPC_set .incr hi (.returned false)
    simp at c1 c3 c4
    exact ⟨hrun, by simp only; omega, fun h => le_trans (hlim (by simp only at h; omega)) hm⟩
  | stop i r now hi hg =>
    have c1 := atPC_set (.returned false) hi .send
    have c3 := atPC_set (.returned false) hi (.returned true)
    have c4 := atPC_set (.returned false) hi (.returned false)
    simp at c1 c3 c4
    exact ⟨hrun, by simp only; omega, fun _ => loopGuard_false hg hrun⟩
  | count i r now hi =>
    have c1 := atPC_set .send hi .send
    have c3 := atPC_set .send hi (.returned true)
    have c4 := atPC_set .send hi (.returned false)
    simp at c1 c3 c4
    exact ⟨hrun, by simp only; omega, fun h => le_trans (hlim (by simp only at h; omega)) hm⟩
  | fatal i msg now hi => simp [Event.undisturbed] at he
  | failed i msg now hi =>
    have c1 := atPC_set .check hi .send
    have c3 := atPC_set .check hi (.returned true)
    have c4 := atPC_set .check hi (.returned false)
    simp at c1 c3 c4
    exact ⟨hrun, by simp only; omega, fun h => le_trans (hlim (by simp only at h; omega)) hm⟩
  | success i now hi =>
    have c1 := atPC_set .check hi .send
    have c3 := atPC_set .check hi (.returned true)
    have c4 := atPC_set .check hi (.returned false)
    simp at c1 c3 c4
    exact ⟨hrun, by simp only; omega, fun h => le_trans (hlim (by simp only at h; omega)) hm⟩
  | status i s now hi hne =>
    have c1 := atPC_set .check hi .send
    have c3 := atPC_set .check hi (.returned true)
    have c4 := atPC_set .check hi (.returned false)
    simp at c1 c3 c4
    exact ⟨hrun, by simp only; omega, fun h => le_trans (hlim (by simp only at h; omega)) hm⟩
  | expire i r now hi hd => rw [durationExpired_false hD] at hd; cases hd
  | remain i r now hi hd =>
    have c1 := atPC_set .sleep hi .send
    have c3 := atPC_set .sleep hi (.returned true)
    have c4 := atPC_set .sleep hi (.returned false)
    simp at c1 c3 c4
    exact ⟨hrun, by simp only; omega, fun h => le_trans (hlim (by simp only at h; omega)) hm⟩
  | slept i r now hi =>
    have c1 := atPC_set .guard hi .send
    have c3 := atPC_set .guard hi (.returned true)
    have c4 := atPC_set .guard hi (.returned false)
    simp at c1 c3 c4
    exact ⟨hrun, by simp only; omega, fun h => le_trans (hlim (by simp only at h; omega)) hm⟩
  | record k error color hk => exact ⟨hrun, hnf, fun h => le_trans (hlim h) hm⟩
  | signal => simp [Event.undisturbed] at he

/-! ## Scheduler: runs against a refusing server -/

theorem refused_table {m : String} {T : ErrorMap}
    (ht : ∀ e ∈ T.entries, e.1 = m ∧ e.2.Color = Blue) :
    ∀ e ∈ (addErrorBody m Blue T).entries, e.1 = m ∧ e.2.Color = Blue := by
  unfold addErrorBody
  cases h : T.lookup m with
  | none =>
    intro e he
    rw [AList.lookup_eq_none] at h
    rw [AList.insert_entries_of_neg h] at he
    rcases List.mem_cons.1 he with e1 | e1
    · subst e1; exact ⟨rfl, rfl⟩
    · exact ht e e1
  | some d =>
    intro e he
    have hd : (⟨m, d⟩ : Entry) ∈ T.entries := List.of_mem_dlookup h
    rw [AList.insert_entries] at he
    rcases List.mem_cons.1 he with e1 | e1
    · subst e1; exact ⟨rfl, (ht _ hd).2⟩
    · exact ht e ((List.kerase_sublist m T.entries).subset e1)

theorem refused_step {options : Options} {m : String} {w w1 : World} {e : Event}
    (hs : Step options w e w1) (he : e.refused m = true) (ha : Accounted w)
    (hb : admitted w < 2 ^ 63) (hr : Refused m w) : Refused m w1 := by
  have herr := hr.errors
  have hrc := ha.requestCount_nonneg
  have hnn := ha.errors_nonneg
  have n2 := atPC_nonneg .incr w.workers
  unfold admitted at hb
  cases hs with
  | idle => exact hr
  | pass i r now hi hg =>
    have p := atPC_pos hi
    have c1 := atPC_set .incr hi .send
    simp at c1
    exact ⟨by simp only; omega, hr.pending, hr.table⟩
  | stop i r now hi hg =>
    have p := atPC_pos hi
    have c1 := atPC_set (.returned false) hi .send
    simp at c1
    exact ⟨by simp only; omega, hr.pending, hr.table⟩
  | count i r now hi =>
    have p := atPC_pos hi
    have c1 := atPC_set .send hi .send
    simp at c1
    have hadd : addInt64 w.OutputData.RequestCount 1 = w.OutputData.RequestCount + 1 :=
      addInt64_one (by omega) (by omega)
    exact ⟨by simp only [hadd]; omega, hr.pending, hr.table⟩
  | fatal i msg now hi => simp [Event.refused] at he
  | failed i msg now hi =>
    have p := atPC_pos hi
    have c1 := atPC_set .check hi .send
    simp at c1
    have hadd : addInt64 w.OutputData.ErrorCount 1 = w.OutputData.ErrorCount + 1 :=
      addInt64_one (by omega) (by omega)
    have hmsg : msg = m := by simpa [Event.refused] using he
    subst hmsg
    refine ⟨by simp only [hadd]; omega, ?_, hr.table⟩
    intro g hg
    rcases List.mem_append.1 hg with h1 | h1
    · exact hr.pending g h1
    · simpa using h1
  | success i now hi => simp [Event.refused] at he
  | status i s now hi hne => simp [Event.refused] at he
  | expire i r now hi hd =>
    have p := atPC_pos hi
    have c1 := atPC_set .sleep hi .send
    simp at c1
    exact ⟨by simp only; omega, hr.pending, hr.table⟩
  | remain i r now hi hd =>
    have p := atPC_pos hi
    have c1 := atPC_set .sleep hi .send
    simp at c1
    exact ⟨by simp only; omega, hr.pending, hr.table⟩
  | slept i r now hi =>
    have p := atPC_pos hi
    have c1 := atPC_set .guard hi .send
    simp at c1
    exact ⟨by simp only; omega, hr.pending, hr.table⟩
  | record k error color hk =>
    have hg := hr.pending _ (List.getElem?_mem hk)
    simp only [Prod.mk.injEq] at hg
    obtain ⟨h1, h2⟩ := hg
    subst h1 h2
    exact ⟨herr, fun g hg => hr.pending g ((List.eraseIdx_sublist _ _).subset hg),
      refused_table hr.table⟩
  | signal => simp [Event.refused] at he

/-! ## Scheduler: the request limit -/

theorem atPC_le_length (a : PC) (workers : List PC) : atPC a workers ≤ workers.length := by
  unfold atPC
  exact_mod_cast List.count_le_length a workers

theorem capped_step {options : Options} {w w1 : World} {e : Event}
    (hs : Step options w e w1) (ha : Accounted w) (hR : 0 < options.RequestCount)
    (hcap : options.RequestCount + w.workers.length ≤ 2 ^ 63)
    (hb : admitted w ≤ options.RequestCount + w.workers.length - 1) :
    Accounted w1 ∧ admitted w1 ≤ options.RequestCount + w1.workers.length - 1 ∧
      w.OutputData.RequestCount ≤ w1.OutputData.RequestCount ∧
      w1.workers.length = w.workers.length := by
  obtain ⟨a1, b1, c1, -, e1⟩ := accounted_step hs ha (by omega)
  refine ⟨a1, ?_, c1, e1⟩
  rw [e1]
  rcases b1 with b1 | ⟨hg, -, hrc⟩
  · omega
  · have hlt := (loopGuard_true hg hR).2
    have hle := atPC_le_length .incr w1.workers
    rw [e1] at hle
    unfold admitted
    omega

theorem capped_run {canon : String → String} {options : Options} (m : String)
    (hR : 0 < options.RequestCount) (hD : ¬ 0 < options.Duration) :
    ∀ (evs : List Event) (w w1 : World), Accounted w →
      options.RequestCount + w.workers.length ≤ 2 ^ 63 →
      admitted w ≤ options.RequestCount + w.workers.length - 1 →
      run canon options w evs = some w1 →
      Accounted w1 ∧ admitted w1 ≤ options.RequestCount + w1.workers.length - 1 ∧
        w1.workers.length = w.workers.length ∧
        ((∀ e ∈ evs, e.undisturbed = true) → Undisturbed options w → Undisturbed options w1) ∧
        ((∀ e ∈ evs, e.refused m = true) → Refused m w → Refused m w1)
  | [], w, w1, ha, _, hb, h => by
    simp only [run, Option.some.injEq] at h
    subst h
    exact ⟨ha, hb, rfl, fun _ hu => hu, fun _ hr => hr⟩
  | e :: evs, w, w1, ha, hcap, hb, h => by
    simp only [run] at h
    cases hs : step canon options w e with
    | none => simp [hs] at h
    | some w2 =>
      simp only [hs] at h
      have hst := step_sound hs
      obtain ⟨a2, b2, c2, e2⟩ := capped_step hst ha hR hcap hb
      obtain ⟨a3, b3, e3, u3, r3⟩ := capped_run m hR hD evs w2 w1 a2 (by rw [e2]; exact hcap) b2 h
      refine ⟨a3, b3, by omega, fun hev hu => ?_, fun hev hr => ?_⟩
      · exact u3 (fun x hx => hev x (by simp [hx]))
          (undisturbed_step hst (hev e (by simp)) hD c2 hu)
      · exact r3 (fun x hx => hev x (by simp [hx]))
          (refused_step hst (hev e (by simp)) ha (by omega) hr)

theorem joined_counts : ∀ (workers : List PC),
    (workers.all fun pc => pc matches .returned _) = true →
      atPC (.returned false) workers + atPC (.returned true) workers = workers.length ∧
        atPC .send workers = 0
  | [], _ => by simp [atPC]
  | pc :: l, h => by
    simp only [List.all_cons, Bool.and_eq_true] at h
    obtain ⟨ih1, ih2⟩ := joined_counts l h.2
    have h1 := h.1
    unfold atPC at ih1 ih2 ⊢
    cases pc with
    | returned fatal =>
      cases fatal <;> simp [List.count_cons] <;> constructor <;> omega
    | guard => simp at h1
    | incr => simp at h1
    | send => simp at h1
    | check => simp at h1
    | sleep => simp at h1

theorem start_capped (options : Options) (t0 : Int) (hR : 0 < options.RequestCount) :
    admitted (start options t0) ≤
      options.RequestCount + (start options t0).workers.length - 1 := by
  rw [(start_accounted options t0).2]
  omega

theorem start_undisturbed (options : Options) (t0 : Int) :
    Undisturbed options (start options t0) :=
  ⟨rfl, by simp [start, atPC_replicate_guard], fun h => by
    simp [start, atPC_replicate_guard] at h⟩

theorem start_threads (options : Options) (t0 : Int) (hT : 1 ≤ options.Threads) :
    ((start options t0).workers.length : Int) = options.Threads := by
  simp only [start, List.length_replicate]
  omega

/-- C6 as amended: with a request limit `R > 0`, no duration limit and `R + threadCount`
within `int64`, the request count never exceeds `R + threadCount - 1` under any schedule; once
all workers have returned it is at least `R` if no interrupt signal arrived and no request
construction failed. -/
theorem request_cap (canon : String → String) (options : Options) (t0 : Int)
    (evs : List Event) (w : World)
    (hR : 0 < options.RequestCount) (hD : ¬ 0 < options.Duration) (hT : 1 ≤ options.Threads)
    (hcap : options.RequestCount + options.Threads ≤ 2 ^ 63)
    (h : run canon options (start options t0) evs = some w) :
    w.OutputData.RequestCount ≤ options.RequestCount + options.Threads - 1 ∧
    (joined w = true → (∀ e ∈ evs, e.undisturbed = true) →
      options.RequestCount ≤ w.OutputData.RequestCount) := by
  have hlen := start_threads options t0 hT
  obtain ⟨a1, b1, e1, u1, -⟩ := capped_run "" hR hD evs _ w (start_accounted options t0).1
    (by rw [hlen]; exact hcap) (start_capped options t0 hR) h
  rw [e1, hlen] at b1
  have n2 := atPC_nonneg .incr w.workers
  unfold admitted at b1
  refine ⟨by omega, fun hj hev => ?_⟩
  have hu := u1 hev (start_undisturbed options t0)
  obtain ⟨j1, -⟩ := joined_counts w.workers hj
  rw [e1, hlen, hu.none_fatal] at j1
  exact hu.limit_reached (by omega)

/-- C6 as stated fails: with limit 5 and one worker, a request construction that fails ends
the worker after its first request, so all workers have returned with a request count of 1,
below the interval from 5 to 5. -/
theorem request_cap_counterexample :
    (0 < brokenOptions.RequestCount ∧ brokenOptions.Duration = 0 ∧ brokenOptions.Threads = 1) ∧
    (run id brokenOptions (start brokenOptions 0) brokenSchedule).map
      (fun w => (joined w, decide (brokenOptions.RequestCount ≤ w.OutputData.RequestCount),
        w.OutputData.RequestCount)) = some (true, false, 1) := by
  decide

/-! ## Scheduler: one worker against a refusing server -/

theorem refused_cycle (canon : String → String) {options : Options} (m : String) (now : Int)
    (hv : ∀ h ∈ options.Headers, validHeader h = true) (hD : ¬ 0 < options.Duration)
    (w : World) (hw : w.workers = [PC.guard]) (hI : w.OutputData.Interrupt = false)
    (h0 : 0 ≤ w.OutputData.RequestCount)
    (hlt : w.OutputData.RequestCount < options.RequestCount)
    (hmax : w.OutputData.RequestCount + 1 < 2 ^ 63) :
    ∃ w1, run canon options w (List.replicate 5 (.worker 0 (.doError m) now)) = some w1 ∧
      w1.workers = [PC.guard] ∧ w1.OutputData.Interrupt = false ∧
      w1.OutputData.RequestCount = w.OutputData.RequestCount + 1 := by
  obtain ⟨d, g, ws⟩ := w
  simp only at hw hI h0 hlt hmax
  subst hw
  have hadd : addInt64 d.RequestCount 1 = d.RequestCount + 1 := addInt64_one (by omega) hmax
  have hg : loopGuard options d = true := by simp [loopGuard, hI, hlt]
  simp [List.replicate, run, step, performTestStep, hg, sendRequest_doError canon hv,
    durationExpired_false hD, addError, setColor, addErrorCount, hadd, hI]

theorem refused_cycles (canon : String → String) {options : Options} (m : String) (t0 now : Int)
    (hv : ∀ h ∈ options.Headers, validHeader h = true) (hD : ¬ 0 < options.Duration)
    (hT : options.Threads = 1) (hR2 : options.RequestCount < 2 ^ 63) :
    ∀ n : Nat, (n : Int) ≤ options.RequestCount →
      ∃ w, run canon options (start options t0)
          (List.replicate (5 * n) (.worker 0 (.doError m) now)) = some w ∧
        w.workers = [PC.guard] ∧ w.OutputData.Interrupt = false ∧
        w.OutputData.RequestCount = n
  | 0, _ => ⟨start options t0, rfl, by simp [start, hT], rfl, rfl⟩
  | n + 1, hn => by
    obtain ⟨w, h1, h2, h3, h4⟩ := refused_cycles canon m t0 now hv hD hT hR2 n (by omega)
    obtain ⟨w1, k1, k2, k3, k4⟩ := refused_cycle canon m now hv hD w h2 h3 (by omega)
      (by omega) (by omega)
    refine ⟨w1, ?_, k2, k3, by rw [k4, h4]; push_cast; rfl⟩
    have : 5 * (n + 1) = 5 * n + 5 := by ring
    rw [this, List.replicate_add, run_append, h1]
    exact k1

theorem refused_stop (canon : String → String) {options : Options} (r : Dispatch) (now : Int)
    (w : World) (hw : w.workers = [PC.guard])
    (hR : 0 < options.RequestCount)
    (hge : options.RequestCount ≤ w.OutputData.RequestCount) :
    ∃ w1, run canon options w [.worker 0 r now] = some w1 ∧ joined w1 = true := by
  obtain ⟨d, g, ws⟩ := w
  simp only at hw hge
  subst hw
  have hne : ¬ options.RequestCount = 0 := by omega
  have hnl : ¬ d.RequestCount < options.RequestCount := by omega
  have hg : loopGuard options d = false := by simp [loopGuard, hne, hnl]
  simp [run, step, performTestStep, hg, joined]

theorem goroutines_drain (canon : String → String) (options : Options) :
    ∀ (n : Nat) (w : World), w.goroutines.length = n →
      ∃ w1, run canon options w (List.replicate n (.goroutine 0)) = some w1 ∧
        w1.goroutines = [] ∧ w1.workers = w.workers
  | 0, w, h => ⟨w, rfl, List.length_eq_zero.1 h, rfl⟩
  | n + 1, w, h => by
    obtain ⟨d, g, ws⟩ := w
    cases g with
    | nil => simp at h
    | cons x g =>
      obtain ⟨error, color⟩ := x
      simp only [List.length_cons, Nat.add_right_cancel_iff] at h
      obtain ⟨w1, h1, h2, h3⟩ := goroutines_drain canon options n
        { OutputData := { d with Errors := addErrorBody error color d.Errors }
          goroutines := g, workers := ws } h
      exact ⟨w1, by simpa [List.replicate, run, step] using h1, h2, h3⟩

theorem refused_of_undisturbed {m : String} {e : Event} (h : e.refused m = true) :
    e.undisturbed = true := by
  cases e with
  | worker i r now => cases r <;> simp [Event.refused, Event.undisturbed] at h ⊢
  | goroutine k => rfl
  | sigint => simp [Event.refused] at h

theorem single_entry {m : String} {T : ErrorMap} {n : Int}
    (ht : ∀ e ∈ T.entries, e.1 = m ∧ e.2.Color = Blue) (hn : totalCount T = n) (hpos : 0 < n) :
    T.entries = [⟨m, { Count := n, Color := Blue }⟩] := by
  have hnd := T.keys_nodup
  unfold totalCount sumCounts at hn
  unfold AList.keys List.keys at hnd
  cases he : T.entries with
  | nil => rw [he] at hn; simp at hn; omega
  | cons e1 l =>
    rw [he] at hn hnd ht
    cases l with
    | nil =>
      obtain ⟨k, v⟩ := e1
      obtain ⟨c, col⟩ := v
      have := ht ⟨k, ⟨c, col⟩⟩ (by simp)
      simp at this hn
      obtain ⟨h1, h2⟩ := this
      subst h1 h2 hn
      rfl
    | cons e2 l2 =>
      have h1 := (ht e1 (by simp)).1
      have h2 := (ht e2 (by simp)).1
      simp [h1, h2] at hnd

/-- C5 as amended: one worker, limit `R > 0`, no duration limit, no interrupt, every dispatch
refused with message `m`. The worker returns under some schedule, and whenever it has
returned the request count and the error count are `R`, every goroutine of `addError` still
waiting is for (`m`, Blue), table and waiting goroutines add up to `R`, and once none is
waiting the table is the single entry `m` with count `R`. -/
theorem refused_run (canon : String → String) (options : Options) (t0 : Int) (m : String)
    (hT : options.Threads = 1) (hR : 0 < options.RequestCount)
    (hR2 : options.RequestCount < 2 ^ 63) (hD : ¬ 0 < options.Duration)
    (hv : ∀ h ∈ options.Headers, validHeader h = true) :
    (∃ evs w, (∀ e ∈ evs, e.refused m = true) ∧
      run canon options (start options t0) evs = some w ∧ joined w = true ∧
      w.goroutines = []) ∧
    (∀ evs w, (∀ e ∈ evs, e.refused m = true) →
      run canon options (start options t0) evs = some w → joined w = true →
      w.OutputData.RequestCount = options.RequestCount ∧
      w.OutputData.ErrorCount = options.RequestCount ∧
      (∀ g ∈ w.goroutines, g = (m, Blue)) ∧
      totalCount w.OutputData.Errors + w.goroutines.length = options.RequestCount ∧
      (w.goroutines = [] →
        w.OutputData.Errors.entries = [⟨m, { Count := options.RequestCount, Color := Blue }⟩])) := by
  constructor
  · obtain ⟨w, h1, h2, h3, h4⟩ := refused_cycles canon m t0 0 hv hD hT hR2
      options.RequestCount.toNat (by omega)
    obtain ⟨w1, k1, k2⟩ := refused_stop canon (.doError m) 0 w h2 hR (by omega)
    obtain ⟨w2, d1, d2, d3⟩ := goroutines_drain canon options w1.goroutines.length w1 rfl
    refine ⟨List.replicate (5 * options.RequestCount.toNat) (.worker 0 (.doError m) 0) ++
      ([.worker 0 (.doError m) 0] ++ List.replicate w1.goroutines.length (.goroutine 0)),
      w2, ?_, ?_, ?_, d2⟩
    · intro e he
      simp only [List.mem_append, List.mem_replicate, List.mem_singleton] at he
      rcases he with ⟨-, rfl⟩ | rfl | ⟨-, rfl⟩ <;> simp [Event.refused]
    · rw [run_append, h1]
      simp only [Option.bind_eq_bind, Option.some_bind]
      rw [run_append, k1]
      exact d1
    · unfold joined at k2 ⊢
      rw [d3]
      exact k2
  · intro evs w hev h hj
    have hlen := start_threads options t0 (by omega : 1 ≤ options.Threads)
    have hr0 : Refused m (start options t0) :=
      ⟨by simp [start, atPC_replicate_guard], by simp [start], by simp [start]⟩
    obtain ⟨a1, b1, e1, u1, r1⟩ := capped_run m hR hD evs _ w (start_accounted options t0).1
      (by rw [hlen]; omega) (start_capped options t0 hR) h
    have hu := u1 (fun e he => refused_of_undisturbed (hev e he)) (start_undisturbed options t0)
    have hr := r1 hev hr0
    obtain ⟨j1, j2⟩ := joined_counts w.workers hj
    rw [e1, hlen, hu.none_fatal] at j1
    rw [e1, hlen] at b1
    have hlo := hu.limit_reached (by omega)
    have n2 := atPC_nonneg .incr w.workers
    unfold admitted at b1
    have hrc : w.OutputData.RequestCount = options.RequestCount := by omega
    have hreq := a1.requests
    have herr := hr.errors
    rw [j2] at hreq herr
    rw [hu.none_fatal] at hreq
    refine ⟨hrc, by omega, hr.pending, by omega, fun hg => ?_⟩
    rw [hg] at hreq
    simp at hreq
    exact single_entry hr.table (by omega) hR

theorem drainedSchedule_run :
    run id exampleOptions (start exampleOptions 0) drainedSchedule = some drainedResult := by
  rfl

theorem refused_run_witness :
    (exampleOptions.Threads = 1 ∧ 0 < exampleOptions.RequestCount ∧
      (∀ e ∈ drainedSchedule, e.refused "connection refused" = true)) ∧
    drainedResult.OutputData.RequestCount = 5 ∧
    drainedResult.OutputData.ErrorCount = 5 ∧
    (∀ g ∈ drainedResult.goroutines, g = ("connection refused", Blue)) ∧
    totalCount drainedResult.OutputData.Errors + drainedResult.goroutines.length = 5 ∧
    (drainedResult.goroutines = [] →
      drainedResult.OutputData.Errors.entries =
        [⟨"connection refused", { Count := 5, Color := Blue }⟩]) :=
  ⟨by decide,
    (refused_run id exampleOptions 0 "connection refused" rfl (by decide) (by decide)
      (by decide) (by decide)).2 drainedSchedule drainedResult (by decide) drainedSchedule_run
      rfl⟩

/-- C5 as stated fails: when the only worker has returned after its five refused requests,
both counters are 5 but the goroutines of `addError` may all be waiting, and the table then
has no entry at all. -/
theorem refused_run_counterexample :
    (run id exampleOptions (start exampleOptions 0) refusedSchedule).map
      (fun w => (joined w, w.OutputData.RequestCount, w.OutputData.ErrorCount,
        w.OutputData.Errors.entries.length, w.goroutines.length)) = some (true, 5, 5, 0, 5) := by
  decide

theorem request_cap_witness :
    (0 < exampleOptions.RequestCount ∧ 1 ≤ exampleOptions.Threads ∧
      joined drainedResult = true ∧ ∀ e ∈ drainedSchedule, e.undisturbed = true) ∧
    drainedResult.OutputData.RequestCount ≤
      exampleOptions.RequestCount + exampleOptions.Threads - 1 ∧
    exampleOptions.RequestCount ≤ drainedResult.OutputData.RequestCount :=
  have h := request_cap id exampleOptions 0 drainedSchedule drainedResult (by decide)
    (by decide) (by decide) (by decide) drainedSchedule_run
  ⟨by decide, h.1, h.2 rfl (by decide)⟩

/-! ## Duration limit -/

/-- C7 as amended: with the stop flag down and a duration whose nanoseconds fit `int64`, the
test after a dispatch raises the flag exactly when the duration is positive and the clock is
strictly later than start plus duration; with duration 0 it never does. -/
theorem duration_check (canon : String → String) (options : Options) (r : Dispatch)
    (now : Int) (w : World) (hI : w.OutputData.Interrupt = false)
    (hD : 1000000000 * options.Duration < 2 ^ 63) :
    ∃ w1, performTestStep canon options r now .check w = some (.sleep, w1) ∧
      (w1.OutputData.Interrupt = true ↔
        (0 < options.Duration ∧
          w.OutputData.Start + 1000000000 * options.Duration < now)) ∧
      (options.Duration = 0 → w1.OutputData.Interrupt = false) := by
  by_cases hpos : 0 < options.Duration
  · have hw : wrap64 (1000000000 * options.Duration) = 1000000000 * options.Duration :=
      wrap64_of_range (by omega) hD
    by_cases hlt : w.OutputData.Start + 1000000000 * options.Duration < now
    · have he : durationExpired options w.OutputData.Start now = true := by
        simp [durationExpired, hpos, hw, hlt]
      exact ⟨_, by simp [performTestStep, he]; rfl, by simp [hpos, hlt], fun h0 => by omega⟩
    · have he : durationExpired options w.OutputData.Start now = false := by
        simp [durationExpired, hw, hlt]
      exact ⟨w, by simp [performTestStep, he], by simp [hI, hlt], fun _ => hI⟩
  · have he := durationExpired_false hpos w.OutputData.Start now
    exact ⟨w, by simp [performTestStep, he], by simp [hI, hpos], fun _ => hI⟩

theorem duration_check_witness :
    ((start timedOptions 0).OutputData.Interrupt = false ∧
      1000000000 * timedOptions.Duration < 2 ^ 63) ∧
    ∃ w1, performTestStep id timedOptions (.response 200) 1000000001 .check (start timedOptions 0) =
        some (.sleep, w1) ∧
      (w1.OutputData.Interrupt = true ↔
        (0 < timedOptions.Duration ∧
          (start timedOptions 0).OutputData.Start + 1000000000 * timedOptions.Duration <
            1000000001)) ∧
      (timedOptions.Duration = 0 → w1.OutputData.Interrupt = false) :=
  ⟨by decide,
    duration_check id timedOptions (.response 200) 1000000001 (start timedOptions 0) rfl
      (by decide)⟩

/-- C7 as stated fails: with a duration of one second and the clock exactly at start plus
duration, the claimed condition holds but the test leaves the stop flag down, because
`Before` is strict. -/
theorem duration_check_counterexample :
    (0 < timedOptions.Duration ∧
      (start timedOptions 0).OutputData.Start + 1000000000 * timedOptions.Duration ≤
        1000000000) ∧
    (performTestStep id timedOptions (.response 200) 1000000000 .check (start timedOptions 0)).map
      (fun p => (p.1, p.2.OutputData.Interrupt)) = some (.sleep, false) := by
  decide

/-! ## Report -/

theorem errorRatePercent_eq_none (d : Data) : errorRatePercent d = none ↔ d.RequestCount = 0 := by
  unfold errorRatePercent
  split <;> simp_all

/-- C3: an interrupt signal before the first loop test ends the run with a request count of 0,
and the error-rate expression of line 363 then divides by zero: the report panics. -/
theorem report_without_requests :
    (run id exampleOptions (start exampleOptions 0) interruptedSchedule).map
      (fun w => (joined w, w.OutputData.RequestCount, w.OutputData.ErrorCount,
        errorRatePercent w.OutputData, (report w.OutputData).isSome)) =
      some (true, 0, 0, none, false) := by
  decide

end Loadtest
